import Mathlib

/-!
Verification development for the two-tower retrieval model
(`src/two_tower_base_retrieval.py`).

The Python source is shallowly embedded as follows.

* Tensors of per-example scalars are functions `ℕ → ℚ` or `ℕ → ℝ` together
  with an explicit batch size `B`; matrices are `ℕ → ℕ → ℝ` with explicit
  widths.  Label data and the configured `user_value_weights` are modelled as
  exact rationals, score/loss arithmetic (which involves `exp`/`log`) over `ℝ`.
* IEEE-754 division by zero is modelled explicitly: the normalization step of
  `train_forward` (line 290) produces a `WVal` (`fin q`, `nan`, `pinf`,
  `ninf`), with `0 / 0 = nan` and `q / 0 = ±∞` for `q ≠ 0`.  Downstream loss
  values are `LVal` (`fin x : ℝ` or `nan`); `nan` is absorbing for every
  arithmetic operation, as in IEEE-754.  Rounding is idealized (exact
  arithmetic), which is irrelevant to the structural claims settled here.
* Shape errors raised by `torch.cat` / `nn.Linear` are modelled by shape-level
  functions returning `Except String (List ℕ)` that implement torch's shape
  rules for the calls appearing in the source.
* Python attribute lookup and call-argument binding are modelled for the two
  claims about crashes (`positional_encoding` missing `self`, and the missing
  `user_history_encoder` attribute).
-/

/-! ## IEEE-style value model for the weight-normalization and loss pipeline -/

/-- Weight value produced by the clamp/normalize step: a finite rational,
NaN, or a signed infinity (division of a nonzero value by zero). -/
inductive WVal where
  | fin (q : ℚ)
  | nan
  | pinf
  | ninf
deriving DecidableEq

/-- IEEE-754 division on (exact) rationals: `0 / 0 = NaN`,
`q / 0 = ±∞` for `q ≠ 0`, otherwise exact division. -/
def ieeeDivQ (a b : ℚ) : WVal :=
  if b = 0 then
    if a = 0 then WVal.nan
    else if 0 < a then WVal.pinf
    else WVal.ninf
  else WVal.fin (a / b)

/-- Loss value: a finite real or NaN (infinities never reach the loss in the
paths modelled here; see `clampNormalize_fin_of_lt` and
`clampNormalize_nan_of_batchMax_eq_zero`). -/
inductive LVal where
  | fin (x : ℝ)
  | nan

/-- Line 272: `net_user_value = torch.matmul(labels, self.user_value_weights)`
with `labels : [B, T]` and weights of length `T`. -/
def netUserValue (T : ℕ) (labels : ℕ → ℕ → ℚ) (uvw : ℕ → ℚ) : ℕ → ℚ :=
  fun i => ∑ t ∈ Finset.range T, labels i t * uvw t

/-- `torch.clamp(x, min=0)`. -/
def clampMin0 (q : ℚ) : ℚ := max q 0

/-- `torch.max(v)` over a `[B]` tensor, `B ≥ 1` (torch raises on an empty
tensor; the `v 0` seed makes the function total and agrees with the real
maximum whenever `0 < B`). -/
def batchMax (B : ℕ) (v : ℕ → ℚ) : ℚ :=
  ((List.range B).map v).foldr max (v 0)

/-- Line 290: `net_user_value = torch.clamp(net_user_value, min=0) /
torch.max(net_user_value)`.  Both occurrences of `net_user_value` on the
right-hand side denote the tensor before the assignment, so the divisor is
the maximum of the PRE-clamp values. -/
def clampNormalize (B : ℕ) (v : ℕ → ℚ) : ℕ → WVal :=
  fun i => ieeeDivQ (clampMin0 (v i)) (batchMax B v)

/-- Modelled from the spec: the spec's step 6 of the training objective says
the clamped value vector is divided "by the batch maximum net user value
(post-clamp)", i.e. the divisor is the maximum of the CLAMPED values.  Stated
only to be compared with `clampNormalize`, the divisor the code computes. -/
def clampNormalizeSpec (B : ℕ) (v : ℕ → ℚ) : ℕ → WVal :=
  fun i => ieeeDivQ (clampMin0 (v i)) (batchMax B (fun j => clampMin0 (v j)))

/-- Lines 279-283: `F.mse_loss(input=net_user_value, target=position_bias,
reduction="mean")` over a batch of size `B` (exact rational model; `B = 0`
gives `0` here where torch would give NaN, immaterial to the claims below). -/
def mseQ (B : ℕ) (a b : ℕ → ℚ) : ℚ :=
  (∑ i ∈ Finset.range B, (a i - b i) ^ 2) / (B : ℚ)

noncomputable section RealPipeline

/-- Elementwise product `loss * net_user_value` (line 293) of a finite
cross-entropy value with a weight.  `ce * NaN = NaN`.  The `±∞` weight cases
cannot arise from `clampNormalize` (the numerator of the division is the
clamped, hence nonnegative, value and is `0` whenever the divisor is `0`);
IEEE-754 would give a sign-dependent infinity or NaN there, collapsed to
`nan` in this model. -/
def WVal.scaleCE (ce : ℝ) : WVal → LVal
  | WVal.fin q => LVal.fin (ce * (q : ℝ))
  | WVal.nan => LVal.nan
  | WVal.pinf => LVal.nan
  | WVal.ninf => LVal.nan

/-- IEEE-style addition of loss values: NaN is absorbing. -/
def LVal.add : LVal → LVal → LVal
  | LVal.fin a, LVal.fin b => LVal.fin (a + b)
  | _, _ => LVal.nan

/-- `torch.mean` over a length-`B` vector of loss values (line 294):
sum of the entries divided by `B`; the mean of an empty tensor is NaN. -/
def batchMeanL (B : ℕ) (t : ℕ → LVal) : LVal :=
  match (List.range B).foldr (fun i acc => LVal.add (t i) acc) (LVal.fin 0) with
  | LVal.nan => LVal.nan
  | LVal.fin s => if B = 0 then LVal.nan else LVal.fin (s / (B : ℝ))

/-! ## `train_forward` pipeline (TwoTowerBaseRetrieval, lines 250-299) -/

/-- Line 251: `scores = torch.matmul(user_embedding, item_embeddings.t())`,
for `user_embedding : [B, D]` and `item_embeddings : [B, D]`:
`scores i j = ⟨U i, I j⟩`. -/
def scoresMatrix (D : ℕ) (U I : ℕ → ℕ → ℝ) : ℕ → ℕ → ℝ :=
  fun i j => ∑ k ∈ Finset.range D, U i k * I j k

/-- Lines 260-269: `F.cross_entropy(input=scores, target=torch.arange(B),
reduction="none")`, row `i`: `-log softmax(scores i)[i]
= log (∑ j, exp (scores i j)) - scores i i`. -/
def crossEntropyRow (B : ℕ) (scores : ℕ → ℕ → ℝ) (i : ℕ) : ℝ :=
  Real.log (∑ j ∈ Finset.range B, Real.exp (scores i j)) - scores i i

/-- Lines 293-294: `loss = loss * net_user_value; loss = torch.mean(loss)`. -/
def weightedMeanLoss (B : ℕ) (ce : ℕ → ℝ) (w : ℕ → WVal) : LVal :=
  batchMeanL B (fun i => WVal.scaleCE (ce i) (w i))

/-- `train_forward` with `enable_position_debiasing=False`, given the user and
item embeddings `U, I : [B, D]` produced by the towers, the labels `[B, T]`
and the configured `user_value_weights` (lines 250-294). -/
def trainLossNoDebias (B D T : ℕ) (U I : ℕ → ℕ → ℝ)
    (labels : ℕ → ℕ → ℚ) (uvw : ℕ → ℚ) : LVal :=
  weightedMeanLoss B (crossEntropyRow B (scoresMatrix D U I))
    (clampNormalize B (netUserValue T labels uvw))

/-- `train_forward` with `enable_position_debiasing=True` (lines 250-299):
look up the scalar position bias per example (`posTable (position i)`, the
`squeeze(1)` of the `[B, 1]` embedding output), form the MSE loss between the
net user value and the bias, subtract the bias from the net user value, run
the clamp/normalize/weight/mean pipeline on the debiased values, and add the
MSE term to the final loss (line 297). -/
def trainLossDebias (B D T : ℕ) (U I : ℕ → ℕ → ℝ)
    (labels : ℕ → ℕ → ℚ) (uvw : ℕ → ℚ)
    (posTable : ℕ → ℚ) (position : ℕ → ℕ) : LVal :=
  let v := netUserValue T labels uvw
  let positionBias := fun i => posTable (position i)
  let positionBiasLoss := mseQ B v positionBias
  let debiased := fun i => v i - positionBias i
  LVal.add
    (weightedMeanLoss B (crossEntropyRow B (scoresMatrix D U I))
      (clampNormalize B debiased))
    (LVal.fin ((positionBiasLoss : ℚ) : ℝ))

end RealPipeline

/-! ## Shape-level model of the tower wiring (torch shape rules) -/

/-- Shape of `torch.cat(tensors, dim)`: all tensors must have the same number
of dimensions and agree on every dimension except `dim`, which is summed. -/
def catShape (shapes : List (List ℕ)) (dim : ℕ) : Except String (List ℕ) :=
  match shapes with
  | [] => Except.error "torch.cat: expected a non-empty list of tensors"
  | s :: rest =>
    if rest.all (fun t => t.length == s.length) then
      if dim < s.length then
        if rest.all (fun t =>
            (List.range s.length).all
              (fun i => i == dim || t.getD i 0 == s.getD i 0)) then
          Except.ok ((List.range s.length).map
            (fun i => if i = dim
              then (s :: rest).foldr (fun t acc => t.getD dim 0 + acc) 0
              else s.getD i 0))
        else Except.error "torch.cat: sizes of tensors must match except in the cat dimension"
      else Except.error "torch.cat: dimension out of range"
    else Except.error "torch.cat: tensors must have the same number of dimensions"

/-- Shape of applying `nn.Linear(inFeatures, outFeatures)` to an input: the
last dimension must equal `inFeatures` and becomes `outFeatures`. -/
def linearShape (inFeatures outFeatures : ℕ) (input : List ℕ) :
    Except String (List ℕ) :=
  if input.getLast? = some inFeatures then
    Except.ok (input.dropLast ++ [outFeatures])
  else Except.error "mat1 and mat2 shapes cannot be multiplied"

/-- Shape of an `nn.Embedding(numEmb, embDim)` lookup: appends `embDim`. -/
def embeddingShape (embDim : ℕ) (input : List ℕ) : List ℕ :=
  input ++ [embDim]

/-- Configured input width of `self.user_tower_arch` (lines 141-142):
`nn.Linear(2 * user_id_embedding_dim + item_id_embedding_dim,
user_id_embedding_dim)`. -/
def userTowerArchInFeatures (DU DI : ℕ) : ℕ := 2 * DU + DI

/-- Shapes reaching the `torch.cat` of `compute_user_embedding`
(lines 182-184): `user_id_embedding : [B, DU]`,
`user_features_embedding : [B, DU]`, `user_history_summary : [B, 2, DI]`
(the `UserHistoryEncoder` output), concatenated along `dim=1`. -/
def userTowerCatShape (B DU DI : ℕ) : Except String (List ℕ) :=
  catShape [[B, DU], [B, DU], [B, 2, DI]] 1

/-- Shape pipeline of `compute_item_embeddings` (lines 189-207):
embedding lookup `[B] → [B, DI]`, feature projection `[B, II] → [B, DI]`,
concatenation along `dim=1`, then `self.item_tower_arch`, which is configured
as `nn.Linear(item_id_embedding_dim, item_id_embedding_dim)` (lines 147-148),
i.e. with input width `DI`, not `2 * DI`. -/
def computeItemEmbeddingsShape (B DI II : ℕ) : Except String (List ℕ) := do
  let idEmb := embeddingShape DI [B]
  let featEmb ← linearShape II DI [B, II]
  let catted ← catShape [idEmb, featEmb] 1
  linearShape DI DI catted

/-! ## Positional encoding (UserHistoryEncoder, lines 29-54) -/

/-- A positional-encoding table, indexed `(pos, column)`; cells outside the
generated `seq_len × d_model` region keep the `torch.zeros` initial value. -/
abbrev PEMat := ℕ → ℕ → ℝ

/-- Single cell assignment `PE[p, c] = x` on a table. -/
def peWrite (pe : PEMat) (p c : ℕ) (x : ℝ) : PEMat :=
  fun q d => if q = p ∧ d = c then x else pe q d

noncomputable section PosEnc

/-- Value written by `PE[pos, i] = math.sin(pos / (10000 ** ((2 * i)/d_model)))`
(line 51), as a function of the column index `i`. -/
def peSin (dModel pos c : ℕ) : ℝ :=
  Real.sin ((pos : ℝ) / (10000 : ℝ) ^ (((2 * c : ℕ) : ℝ) / (dModel : ℝ)))

/-- Value written by
`PE[pos, i + 1] = math.cos(pos / (10000 ** ((2 * (i + 1))/d_model)))`
(line 53), as a function of the column index `i + 1`. -/
def peCos (dModel pos c : ℕ) : ℝ :=
  Real.cos ((pos : ℝ) / (10000 : ℝ) ^ (((2 * c : ℕ) : ℝ) / (dModel : ℝ)))

/-- Body of the inner loop `for i in range(0, d_model, 2)` (lines 50-53):
write the sine value at column `i`, and, when `i + 1 < d_model`, the cosine
value at column `i + 1`. -/
def peInnerStep (dModel pos : ℕ) (pe : PEMat) (i : ℕ) : PEMat :=
  let pe1 := peWrite pe pos i (peSin dModel pos i)
  if i + 1 < dModel then peWrite pe1 pos (i + 1) (peCos dModel pos (i + 1))
  else pe1

/-- One iteration of the outer loop `for pos in range(seq_len)` (line 49):
run the inner loop over the even columns `range(0, d_model, 2)`. -/
def peRow (dModel : ℕ) (pe : PEMat) (pos : ℕ) : PEMat :=
  ((List.range dModel).filter (fun i => i % 2 == 0)).foldl
    (peInnerStep dModel pos) pe

/-- `UserHistoryEncoder.positional_encoding` (lines 47-54): start from
`torch.zeros(seq_len, d_model)` and run the two nested loops. -/
def positional_encoding (seqLen dModel : ℕ) : PEMat :=
  (List.range seqLen).foldl (peRow dModel) (fun _ _ => 0)

/-- `self.positional_embeddings` after line 36:
`self.positional_embeddings.flip([0])` reverses the position axis of the
`[H, DI]` table, so stored row `r` (for `r < H`) is generated row `H - 1 - r`.
(The constructor's call to the generator actually raises a `TypeError`
— see `pyBindArgs` and the claim about `UserHistoryEncoder.__init__`; this
definition is the value lines 30-36 specify.) -/
def positional_embeddings (H DI : ℕ) : PEMat :=
  fun r c => positional_encoding H DI (H - 1 - r) c

/-- Modelled from the spec: the spec's positional-encoding contract says
"entry (pos, 2i) = sin(pos / 10000^(2i/D))", i.e. the sine entry at even
column `2 * i` uses exponent `(2 * i) / D`.  Stated only to be compared with
the table `positional_encoding` computes. -/
def specPESinEntry (D pos i : ℕ) : ℝ :=
  Real.sin ((pos : ℝ) / (10000 : ℝ) ^ (((2 * i : ℕ) : ℝ) / (D : ℝ)))

end PosEnc

/-! ## UserHistoryEncoder.forward (lines 56-91)

Tensors are nested lists: a `[B, H, DI]` tensor is a `T3`, rows innermost.
The multi-head attention module is a parameter (its internals are PyTorch
library code, outside this repository); the claims about `forward` only use
that it is called with the same enriched sequence as query, key and value,
and that it maps `[H, B, DI]` tensors to `[H, B, DI]` tensors. -/

abbrev T1 := List ℝ
abbrev T2 := List T1
abbrev T3 := List T2

/-- `x.length = a ∧` every row has length `b`: the tensor has shape `[a, b]`. -/
def hasShape2 (x : T2) (a b : ℕ) : Prop :=
  x.length = a ∧ ∀ r ∈ x, r.length = b

/-- The tensor has shape `[a, b, c]`. -/
def hasShape3 (x : T3) (a b c : ℕ) : Prop :=
  x.length = a ∧ ∀ m ∈ x, hasShape2 m b c

noncomputable section HistEnc

/-- Line 70: `user_history + self.positional_embeddings.unsqueeze(0)` —
broadcast the `[H, DI]` positional table over the batch dimension and add. -/
def addPositional (hist : T3) (pos : T2) : T3 :=
  hist.map (fun m => List.zipWith (fun r p => List.zipWith (· + ·) r p) m pos)

/-- `t.permute(1, 0, 2)`: swap the two outer dimensions, `[B, H, DI]` to
`[H, B, DI]` (and back).  Torch reads the sizes off the tensor; here they are
read off the nested list (the head's length is the new outer size). -/
def permute102 (x : T3) : T3 :=
  match x with
  | [] => []
  | m :: _ => (List.range m.length).map (fun h => x.map (fun mat => mat.getD h []))

/-- Line 85, `attn_output[:, 0, :]` on a `[B, H, DI]` tensor: row 0 of each
batch element, a `[B, DI]` tensor. -/
def firstRows (x : T3) : T2 := x.map (fun m => m.getD 0 [])

/-- Line 85, `.squeeze(1)` on the `[B, DI]` tensor of first rows: torch
removes dimension 1 exactly when its size is 1, i.e. when `DI = 1`, leaving a
`[B]` tensor; otherwise the tensor is unchanged. -/
def squeezeDim1 (x : T2) : T2 ⊕ T1 :=
  if x.all (fun r => r.length == 1) then Sum.inr (x.map (fun r => r.getD 0 0))
  else Sum.inl x

/-- Mean of the `H` rows of one `[H, DI]` matrix (line 86,
`torch.mean(attn_output, dim=1)`, per batch element). -/
def rowMean (m : T2) : T1 :=
  (match m with
   | [] => []
   | r :: t => t.foldl (List.zipWith (· + ·)) r).map (fun s => s / (m.length : ℝ))

/-- Lines 88-90: `torch.stack([first_item, mean_value], dim=1)`.  Torch
requires all stacked tensors to have the same shape; when `first_item` was
squeezed to one dimension (`DI = 1`) while `mean_value` is two-dimensional,
or when the shapes disagree, it raises. -/
def stackPair1 : T2 ⊕ T1 → T2 → Except String T3
  | Sum.inl a, b =>
    if a.length == b.length
        && (List.zip a b).all (fun rc => rc.1.length == rc.2.length) then
      Except.ok (List.zipWith (fun x y => [x, y]) a b)
    else Except.error "stack expects each tensor to be equal size"
  | Sum.inr _, _ => Except.error "stack expects each tensor to be equal size"

/-- `UserHistoryEncoder.forward` (lines 56-91): add the positional table,
run multi-head attention with the same permuted enriched sequence as query,
key and value, permute back, extract the first (most recent) attended row and
the mean attended row, and stack them. -/
def UserHistoryEncoder.forward (attn : T3 → T3 → T3 → T3) (pos : T2)
    (user_history : T3) : Except String T3 :=
  let enriched := addPositional user_history pos
  let permuted := permute102 enriched
  let attnOutput := permute102 (attn permuted permuted permuted)
  let firstItem := squeezeDim1 (firstRows attnOutput)
  let meanValue := attnOutput.map rowMean
  stackPair1 firstItem meanValue

end HistEnc

/-! ## Python-semantics models for the two crash claims -/

/-- Python call-argument binding: `params` is the function's parameter list,
`posCount` the number of positional arguments supplied, `kwargs` the keyword
names supplied.  A keyword that names a parameter already filled positionally
raises `TypeError: got multiple values for argument`. -/
def pyBindArgs (params : List String) (posCount : ℕ) (kwargs : List String) :
    Except String Unit :=
  if kwargs.any (fun k => (params.take posCount).contains k) then
    Except.error "TypeError: got multiple values for argument"
  else if kwargs.any (fun k => !params.contains k) then
    Except.error "TypeError: unexpected keyword argument"
  else if params.length < posCount then
    Except.error "TypeError: too many positional arguments"
  else if (params.drop posCount).any (fun p => !kwargs.contains p) then
    Except.error "TypeError: missing required argument"
  else Except.ok ()

/-- Parameter list of `UserHistoryEncoder.positional_encoding` (line 47):
`def positional_encoding(seq_len, d_model)` — declared WITHOUT `self`. -/
def positionalEncodingParams : List String := ["seq_len", "d_model"]

/-- State of a constructed `UserHistoryEncoder` (fields assigned by
`__init__`, lines 24-45; the attention module itself is library state and is
not carried here). -/
structure UserHistoryEncoder where
  item_id_embedding_dim : ℕ
  history_len : ℕ
  num_heads : ℕ
  positionalTable : PEMat

noncomputable section EncoderInit

/-- `UserHistoryEncoder.__init__` (lines 18-45).  Line 30 evaluates
`self.positional_encoding(seq_len=history_len, d_model=item_id_embedding_dim)`:
looking the function up through `self` binds the instance as the first
positional argument, so the call supplies 1 positional argument and the
keywords `seq_len` and `d_model` to a function whose parameters are
`(seq_len, d_model)`.  Only if that binding succeeded would the table be
computed, flipped (line 36) and stored. -/
def UserHistoryEncoder.init (item_id_embedding_dim history_len num_heads : ℕ) :
    Except String UserHistoryEncoder :=
  match pyBindArgs positionalEncodingParams 1 ["seq_len", "d_model"] with
  | Except.error e => Except.error e
  | Except.ok _ =>
    Except.ok
      { item_id_embedding_dim := item_id_embedding_dim
        history_len := history_len
        num_heads := num_heads
        positionalTable := positional_embeddings history_len item_id_embedding_dim }

end EncoderInit

/-- Attributes assigned by `TwoTowerBaseRetrieval.__init__` (lines 126-154),
in source order; `position_bias_net_user_value` only when
`enable_position_debiasing` is set.  No `user_history_encoder` is assigned. -/
def twoTowerInitAttrs (enablePositionDebiasing : Bool) : List String :=
  ["num_items", "user_value_weights", "knn_module", "enable_position_debiasing",
   "user_id_embedding_arch", "item_id_embedding_arch", "user_features_arch",
   "user_tower_arch", "item_features_arch", "item_tower_arch"] ++
  (if enablePositionDebiasing then ["position_bias_net_user_value"] else [])

/-- Methods defined on the `TwoTowerBaseRetrieval` class body (also reachable
by attribute lookup on an instance). -/
def twoTowerMethods : List String :=
  ["compute_user_embedding", "compute_item_embeddings", "forward", "train_forward"]

/-- Python attribute lookup on an instance: instance attributes first, then
the class body; otherwise `AttributeError`. -/
def getattrModel (attrs methods : List String) (name : String) :
    Except String Unit :=
  if attrs.contains name || methods.contains name then Except.ok ()
  else Except.error ("AttributeError: " ++ name)

/-- Attribute lookups performed by `compute_user_embedding` (lines 173-186),
in evaluation order: `item_id_embedding_arch` (line 174),
`user_history_encoder` (line 176), `user_id_embedding_arch` (line 178),
`user_features_arch` (line 180), `user_tower_arch` (line 186). -/
def computeUserEmbeddingAttrTrace (attrs : List String) : Except String Unit := do
  getattrModel attrs twoTowerMethods "item_id_embedding_arch"
  getattrModel attrs twoTowerMethods "user_history_encoder"
  getattrModel attrs twoTowerMethods "user_id_embedding_arch"
  getattrModel attrs twoTowerMethods "user_features_arch"
  getattrModel attrs twoTowerMethods "user_tower_arch"

/-- Attribute lookups performed by `forward` (lines 209-224): it first calls
`compute_user_embedding` (line 219), then uses `knn_module` and `num_items`. -/
def forwardAttrTrace (attrs : List String) : Except String Unit := do
  getattrModel attrs twoTowerMethods "compute_user_embedding"
  computeUserEmbeddingAttrTrace attrs
  getattrModel attrs twoTowerMethods "knn_module"
  getattrModel attrs twoTowerMethods "num_items"

/-- Attribute lookups performed by `train_forward` (lines 226-299): it first
calls `compute_user_embedding` (line 243), then `compute_item_embeddings` and
the remaining attributes. -/
def trainForwardAttrTrace (attrs : List String) : Except String Unit := do
  getattrModel attrs twoTowerMethods "compute_user_embedding"
  computeUserEmbeddingAttrTrace attrs
  getattrModel attrs twoTowerMethods "compute_item_embeddings"
  getattrModel attrs twoTowerMethods "item_id_embedding_arch"
  getattrModel attrs twoTowerMethods "item_features_arch"
  getattrModel attrs twoTowerMethods "item_tower_arch"
  getattrModel attrs twoTowerMethods "user_value_weights"

/-! ## Concrete inputs used by witnesses and counterexamples -/

/-- Identically-zero cross-entropy vector. -/
noncomputable def ceZero : ℕ → ℝ := fun _ => 0

/-- Identically-zero net-user-value vector. -/
def vZeroQ : ℕ → ℚ := fun _ => 0

/-- Identically `-1` net-user-value vector: every example strictly negative. -/
def vNegOne : ℕ → ℚ := fun _ => -1

/-- Net-user-value vector with a single positive example at index 0. -/
def vOnePos : ℕ → ℚ := fun i => if i = 0 then 3 else -1

/-- Identically-zero embedding matrix. -/
noncomputable def embZero : ℕ → ℕ → ℝ := fun _ _ => 0

/-- Identically-zero label matrix. -/
def labelsZero : ℕ → ℕ → ℚ := fun _ _ => 0

/-- Identically-one label matrix. -/
def labelsOne : ℕ → ℕ → ℚ := fun _ _ => 1

/-- Identically `-1` label matrix. -/
def labelsNegOne : ℕ → ℕ → ℚ := fun _ _ => -1

/-- Identically-one user-value weight vector. -/
def uvwOne : ℕ → ℚ := fun _ => 1

/-- Identity "attention": returns its query unchanged; trivially
shape-preserving. -/
def attnId : T3 → T3 → T3 → T3 := fun q _ _ => q

/-- A `[1, 1, 1]` history tensor (B = 1, H = 1, DI = 1). -/
noncomputable def histB1H1D1 : T3 := [[[5]]]

/-- A `[1, 1]` positional table for H = 1, DI = 1. -/
noncomputable def posH1D1 : T2 := [[2]]

/-- A `[1, 1, 2]` history tensor (B = 1, H = 1, DI = 2). -/
noncomputable def histB1H1D2 : T3 := [[[1, 2]]]

/-- A `[1, 2]` positional table for H = 1, DI = 2. -/
noncomputable def posH1D2 : T2 := [[0, 0]]

/-! ## Helper lemmas -/

theorem foldr_max_init_le (l : List ℚ) (a c : ℚ) (ha : a ≤ c)
    (h : ∀ x ∈ l, x ≤ c) : l.foldr max a ≤ c := by
  induction l with
  | nil => simpa using ha
  | cons x t ih =>
    simp only [List.foldr_cons, max_le_iff]
    exact ⟨h x (List.mem_cons_self x t), ih fun y hy => h y (List.mem_cons_of_mem x hy)⟩

theorem le_foldr_max_of_mem (l : List ℚ) (a x : ℚ) (hx : x ∈ l) :
    x ≤ l.foldr max a := by
  induction l with
  | nil => cases hx
  | cons y t ih =>
    rcases List.mem_cons.mp hx with h | h
    · subst h; exact le_max_left _ _
    · exact le_trans (ih h) (le_max_right _ _)

theorem le_batchMax (B i : ℕ) (v : ℕ → ℚ) (hi : i < B) : v i ≤ batchMax B v :=
  le_foldr_max_of_mem _ _ _ (List.mem_map_of_mem v (List.mem_range.mpr hi))

theorem batchMax_le (B : ℕ) (v : ℕ → ℚ) (c : ℚ) (hB : 0 < B)
    (h : ∀ i, i < B → v i ≤ c) : batchMax B v ≤ c := by
  refine foldr_max_init_le _ _ _ (h 0 hB) ?_
  intro x hx
  rcases List.mem_map.mp hx with ⟨i, hi, rfl⟩
  exact h i (List.mem_range.mp hi)

theorem clampNormalize_eq_fin (B i : ℕ) (v : ℕ → ℚ) (h : batchMax B v ≠ 0) :
    clampNormalize B v i = WVal.fin (clampMin0 (v i) / batchMax B v) := by
  simp [clampNormalize, ieeeDivQ, h]

theorem clampNormalize_eq_nan (B i : ℕ) (v : ℕ → ℚ) (hi : i < B)
    (hneg : ∀ j, j < B → v j ≤ 0) (hmax : batchMax B v = 0) :
    clampNormalize B v i = WVal.nan := by
  have hvi : clampMin0 (v i) = 0 := max_eq_right (hneg i hi)
  simp [clampNormalize, ieeeDivQ, hmax, hvi]

theorem clampMin0_of_nonpos (q : ℚ) (h : q ≤ 0) : clampMin0 q = 0 :=
  max_eq_right h

theorem clampMin0_of_nonneg (q : ℚ) (h : 0 ≤ q) : clampMin0 q = q :=
  max_eq_left h

theorem batchMax_one (v : ℕ → ℚ) : batchMax 1 v = v 0 := by
  simp [batchMax, List.range_succ]

theorem foldr_addL_nan (l : List ℕ) (t : ℕ → LVal) (init : LVal)
    (h : ∃ i ∈ l, t i = LVal.nan) :
    l.foldr (fun i acc => LVal.add (t i) acc) init = LVal.nan := by
  induction l with
  | nil => simp at h
  | cons x xs ih =>
    rcases h with ⟨i, hi, hnan⟩
    rcases List.mem_cons.mp hi with h | h
    · subst h
      simp only [List.foldr_cons, hnan]
      cases xs.foldr (fun i acc => LVal.add (t i) acc) init <;> rfl
    · simp only [List.foldr_cons, ih ⟨i, h, hnan⟩]
      cases t x <;> rfl

theorem foldr_addL_fin (l : List ℕ) (g : ℕ → ℝ) :
    l.foldr (fun i acc => LVal.add (LVal.fin (g i)) acc) (LVal.fin 0)
      = LVal.fin (l.foldr (fun i s => g i + s) 0) := by
  induction l with
  | nil => rfl
  | cons x xs ih => rw [List.foldr_cons, ih]; rfl

theorem foldr_add_nonneg (l : List ℕ) (g : ℕ → ℝ)
    (h : ∀ i ∈ l, 0 ≤ g i) : 0 ≤ l.foldr (fun i s => g i + s) 0 := by
  induction l with
  | nil => simp
  | cons x xs ih =>
    simp only [List.foldr_cons]
    have h1 := h x (List.mem_cons_self x xs)
    have h2 := ih fun i hi => h i (List.mem_cons_of_mem x hi)
    linarith

theorem crossEntropyRow_nonneg (B i : ℕ) (scores : ℕ → ℕ → ℝ) (hi : i < B) :
    0 ≤ crossEntropyRow B scores i := by
  unfold crossEntropyRow
  have hmem : i ∈ Finset.range B := Finset.mem_range.mpr hi
  have hle : Real.exp (scores i i) ≤ ∑ j ∈ Finset.range B, Real.exp (scores i j) :=
    Finset.single_le_sum (fun j _ => (Real.exp_pos (scores i j)).le) hmem
  have hpos : (0 : ℝ) < ∑ j ∈ Finset.range B, Real.exp (scores i j) :=
    lt_of_lt_of_le (Real.exp_pos _) hle
  have := (Real.le_log_iff_exp_le hpos).mpr hle
  linarith

theorem peInnerStep_eval (d pos : ℕ) (pe : PEMat) (a p c : ℕ) :
    peInnerStep d pos pe a p c =
      if p = pos ∧ c = a then peSin d pos a
      else if p = pos ∧ c = a + 1 ∧ a + 1 < d then peCos d pos (a + 1)
      else pe p c := by
  by_cases hd : a + 1 < d
  · simp only [peInnerStep, hd, if_true, peWrite, and_true]
    split_ifs <;> first | rfl | omega
  · simp only [peInnerStep, hd, if_false, peWrite, and_false, iff_false,
      eq_self_iff_true]

theorem peInner_foldl_eval (d pos : ℕ) (l : List ℕ) :
    ∀ (pe : PEMat) (p c : ℕ), (∀ x ∈ l, x % 2 = 0) →
    l.foldl (peInnerStep d pos) pe p c =
      (if p = pos ∧ ((c % 2 = 0 ∧ c ∈ l) ∨ (c % 2 = 1 ∧ c - 1 ∈ l ∧ c < d)) then
        if c % 2 = 0 then peSin d pos c else peCos d pos c
      else pe p c) := by
  induction l with
  | nil => intro pe p c _; simp
  | cons a t ih =>
    intro pe p c hl
    have ha : a % 2 = 0 := hl a (List.mem_cons_self a t)
    have hl2 : ∀ x ∈ t, x % 2 = 0 := fun x hx => hl x (List.mem_cons_of_mem a hx)
    rw [List.foldl_cons, ih (peInnerStep d pos pe a) p c hl2, peInnerStep_eval]
    simp only [List.mem_cons]
    by_cases hp : p = pos
    · subst hp
      by_cases he : c % 2 = 0
      · have hne : ¬ c % 2 = 1 := by omega
        have hne2 : ¬ c = a + 1 := by omega
        by_cases hmem : c ∈ t
        · simp [he, hne, hmem]
        · by_cases hca : c = a
          · subst hca
            simp [he, hne, hmem]
          · simp [he, hne, hmem, hca, hne2]
      · have ho : c % 2 = 1 := by omega
        have hnca : ¬ c = a := by omega
        by_cases hlt : c < d
        · by_cases hmem : c - 1 ∈ t
          · simp [he, ho, hmem, hlt]
          · by_cases hca : c - 1 = a
            · have hc1 : c = a + 1 := by omega
              have hlt2 : a + 1 < d := by omega
              subst hc1
              simp [he, ho, hmem, hca, hlt, hlt2]
            · simp only [he, ho, hmem, hca, hlt, hnca, if_false, if_true,
                false_and, and_false, false_or, or_false, true_and, and_true]
              split_ifs <;> first | rfl | omega
        · have hne3 : ¬ (c = a + 1 ∧ a + 1 < d) := by omega
          simp [he, ho, hlt, hnca, hne3]
    · simp [hp]

theorem peRow_eval (d : ℕ) (pe : PEMat) (q p c : ℕ) :
    peRow d pe q p c =
      if p = q ∧ c < d then (if c % 2 = 0 then peSin d q c else peCos d q c)
      else pe p c := by
  unfold peRow
  rw [peInner_foldl_eval d q _ pe p c]
  · have hmem : ∀ x : ℕ,
        (x ∈ (List.range d).filter (fun i => i % 2 == 0)) ↔ (x < d ∧ x % 2 = 0) := by
      intro x
      simp [List.mem_filter, List.mem_range, and_comm]
    by_cases hp : p = q
    · subst hp
      have hiff : (c % 2 = 0 ∧ c ∈ (List.range d).filter (fun i => i % 2 == 0)) ∨
          (c % 2 = 1 ∧ c - 1 ∈ (List.range d).filter (fun i => i % 2 == 0) ∧ c < d)
          ↔ c < d := by
        rw [hmem c, hmem (c - 1)]
        omega
      exact if_congr (by rw [hiff]) rfl rfl
    · simp [hp]
  · intro x hx
    simpa using (List.mem_filter.mp hx).2

theorem pe_rows_foldl_eval (d : ℕ) (l : List ℕ) :
    ∀ (pe : PEMat) (p c : ℕ),
    l.foldl (peRow d) pe p c =
      (if p ∈ l ∧ c < d then (if c % 2 = 0 then peSin d p c else peCos d p c)
      else pe p c) := by
  induction l with
  | nil => intro pe p c; simp
  | cons a t ih =>
    intro pe p c
    rw [List.foldl_cons, ih (peRow d pe a) p c, peRow_eval]
    simp only [List.mem_cons]
    by_cases hp : p = a
    · subst hp
      by_cases hmem : p ∈ t <;> by_cases hc : c < d <;>
        simp [hmem, hc]
    · by_cases hmem : p ∈ t <;> by_cases hc : c < d <;>
        simp [hp, hmem, hc]

theorem positional_encoding_eval (H D pos c : ℕ) (hp : pos < H) (hc : c < D) :
    positional_encoding H D pos c =
      (if c % 2 = 0 then peSin D pos c else peCos D pos c) := by
  unfold positional_encoding
  rw [pe_rows_foldl_eval D (List.range H) _ pos c]
  simp [List.mem_range, hp, hc]

theorem zipWith_row_length {f : ℝ → ℝ → ℝ} (r p : T1) :
    (List.zipWith f r p).length = min r.length p.length :=
  List.length_zipWith f r p

theorem addPositional_shape (hist : T3) (pos : T2) (B H DI : ℕ)
    (hh : hasShape3 hist B H DI) (hp : hasShape2 pos H DI) :
    hasShape3 (addPositional hist pos) B H DI := by
  obtain ⟨hlen, hrows⟩ := hh
  obtain ⟨hplen, hprows⟩ := hp
  refine ⟨by simpa [addPositional] using hlen, ?_⟩
  intro m hm
  rcases List.mem_map.mp hm with ⟨m0, hm0, rfl⟩
  obtain ⟨hm0len, hm0rows⟩ := hrows m0 hm0
  constructor
  · simp [List.length_zipWith, hm0len, hplen]
  · intro r hr
    rw [List.mem_iff_getElem] at hr
    obtain ⟨i, hi, rfl⟩ := hr
    rw [List.getElem_zipWith]
    have hi2 : i < m0.length := by
      simp [List.length_zipWith] at hi
      omega
    have hi3 : i < pos.length := by
      simp [List.length_zipWith] at hi
      omega
    rw [List.length_zipWith, hm0rows _ (List.getElem_mem hi2),
      hprows _ (List.getElem_mem hi3)]
    omega

theorem permute102_shape (x : T3) (B H DI : ℕ) (hB : 0 < B)
    (hx : hasShape3 x B H DI) : hasShape3 (permute102 x) H B DI := by
  obtain ⟨hlen, hrows⟩ := hx
  obtain ⟨m, t, rfl⟩ : ∃ m t, x = m :: t := by
    cases x with
    | nil => simp at hlen; omega
    | cons m t => exact ⟨m, t, rfl⟩
  · have hmH : m.length = H := (hrows m (List.mem_cons_self m t)).1
    constructor
    · simp [permute102, hmH]
    · intro mat hmat
      simp only [permute102] at hmat
      rcases List.mem_map.mp hmat with ⟨h, hhmem, rfl⟩
      have hhH : h < H := by
        rw [List.mem_range, hmH] at hhmem
        exact hhmem
      constructor
      · simpa using hlen
      · intro r hr
        rcases List.mem_map.mp hr with ⟨mat0, hmat0, rfl⟩
        obtain ⟨hm0len, hm0rows⟩ := hrows mat0 hmat0
        have hh2 : h < mat0.length := by omega
        rw [List.getD_eq_getElem _ _ hh2]
        exact hm0rows _ (List.getElem_mem hh2)

theorem foldl_zipWith_add_length (t : List T1) (r : T1) (n : ℕ)
    (hr : r.length = n) (ht : ∀ x ∈ t, x.length = n) :
    (t.foldl (List.zipWith (· + ·)) r).length = n := by
  induction t generalizing r with
  | nil => simpa using hr
  | cons x xs ih =>
    rw [List.foldl_cons]
    refine ih _ ?_ (fun y hy => ht y (List.mem_cons_of_mem x hy))
    rw [List.length_zipWith, hr, ht x (List.mem_cons_self x xs)]
    omega

theorem rowMean_length (m : T2) (H DI : ℕ) (hH : 0 < H)
    (hm : hasShape2 m H DI) : (rowMean m).length = DI := by
  obtain ⟨hlen, hrows⟩ := hm
  obtain ⟨r, t, rfl⟩ : ∃ r t, m = r :: t := by
    cases m with
    | nil => simp at hlen; omega
    | cons r t => exact ⟨r, t, rfl⟩
  simp only [rowMean, List.length_map]
  exact foldl_zipWith_add_length t r DI (hrows r (List.mem_cons_self r t))
    (fun y hy => hrows y (List.mem_cons_of_mem r hy))

theorem firstRows_shape (x : T3) (B H DI : ℕ) (hH : 0 < H)
    (hx : hasShape3 x B H DI) : hasShape2 (firstRows x) B DI := by
  obtain ⟨hlen, hrows⟩ := hx
  constructor
  · simpa [firstRows] using hlen
  · intro r hr
    rcases List.mem_map.mp hr with ⟨m, hm, rfl⟩
    obtain ⟨hmlen, hmrows⟩ := hrows m hm
    have h0 : 0 < m.length := by omega
    rw [List.getD_eq_getElem _ _ h0]
    exact hmrows _ (List.getElem_mem h0)

theorem squeezeDim1_of_ne_one (x : T2) (B DI : ℕ) (hB : 0 < B) (hDI : DI ≠ 1)
    (hx : hasShape2 x B DI) : squeezeDim1 x = Sum.inl x := by
  obtain ⟨hlen, hrows⟩ := hx
  obtain ⟨r, t, rfl⟩ : ∃ r t, x = r :: t := by
    cases x with
    | nil => simp at hlen; omega
    | cons r t => exact ⟨r, t, rfl⟩
  unfold squeezeDim1
  rw [if_neg]
  intro hall
  have := List.all_eq_true.mp hall r (List.mem_cons_self r t)
  have hr : r.length = DI := hrows r (List.mem_cons_self r t)
  simp [hr] at this
  exact hDI this

theorem mapRowMean_shape (x : T3) (B H DI : ℕ) (hH : 0 < H)
    (hx : hasShape3 x B H DI) : hasShape2 (x.map rowMean) B DI := by
  obtain ⟨hlen, hrows⟩ := hx
  constructor
  · simpa using hlen
  · intro r hr
    rcases List.mem_map.mp hr with ⟨m, hm, rfl⟩
    exact rowMean_length m H DI hH (hrows m hm)

theorem stackPair1_ok (a b : T2) (B DI : ℕ)
    (ha : hasShape2 a B DI) (hb : hasShape2 b B DI) :
    stackPair1 (Sum.inl a) b
      = Except.ok (List.zipWith (fun x y => [x, y]) a b) := by
  have hcond : (a.length == b.length
      && (List.zip a b).all fun rc => rc.1.length == rc.2.length) = true := by
    rw [Bool.and_eq_true]
    constructor
    · rw [beq_iff_eq, ha.1, hb.1]
    · rw [List.all_eq_true]
      intro rc hrc
      rw [beq_iff_eq, ha.2 _ (List.of_mem_zip hrc).1, hb.2 _ (List.of_mem_zip hrc).2]
  simp only [stackPair1, hcond, if_true]

theorem stack_result_shape (a b : T2) (B DI : ℕ)
    (ha : hasShape2 a B DI) (hb : hasShape2 b B DI) :
    hasShape3 (List.zipWith (fun x y => [x, y]) a b) B 2 DI := by
  constructor
  · rw [List.length_zipWith, ha.1, hb.1]
    omega
  · intro m hm
    rw [List.mem_iff_getElem] at hm
    obtain ⟨i, hi, rfl⟩ := hm
    rw [List.getElem_zipWith]
    have hia : i < a.length := by
      simp [List.length_zipWith] at hi
      omega
    have hib : i < b.length := by
      simp [List.length_zipWith] at hi
      omega
    refine ⟨rfl, ?_⟩
    intro r hr
    rcases List.mem_cons.mp hr with h | h
    · subst h; exact ha.2 _ (List.getElem_mem hia)
    · rcases List.mem_cons.mp h with h2 | h2
      · subst h2; exact hb.2 _ (List.getElem_mem hib)
      · cases h2

/-! ## Claim theorems -/

/-- C9: constructing a `UserHistoryEncoder` always fails, for every choice of
`item_id_embedding_dim`, `history_len` and `num_heads`: `positional_encoding`
is declared without a `self` parameter, so the constructor's bound-method call
`self.positional_encoding(seq_len=..., d_model=...)` passes the instance as
the positional `seq_len` argument while also supplying `seq_len` by keyword,
raising a `TypeError` before any positional table is produced. -/
theorem c9_encoder_init_always_fails
    (item_id_embedding_dim history_len num_heads : ℕ) :
    UserHistoryEncoder.init item_id_embedding_dim history_len num_heads
      = Except.error "TypeError: got multiple values for argument" := rfl

/-- C10: `TwoTowerBaseRetrieval.__init__` never assigns a
`user_history_encoder` attribute, yet `compute_user_embedding` reads
`self.user_history_encoder`; so the attribute trace of
`compute_user_embedding` — and hence of `forward` and `train_forward`, which
call it first — ends in an `AttributeError` for `user_history_encoder`, for
either value of `enable_position_debiasing`. -/
theorem c10_missing_user_history_encoder (enablePositionDebiasing : Bool) :
    computeUserEmbeddingAttrTrace (twoTowerInitAttrs enablePositionDebiasing)
        = Except.error "AttributeError: user_history_encoder"
      ∧ forwardAttrTrace (twoTowerInitAttrs enablePositionDebiasing)
        = Except.error "AttributeError: user_history_encoder"
      ∧ trainForwardAttrTrace (twoTowerInitAttrs enablePositionDebiasing)
        = Except.error "AttributeError: user_history_encoder" := by
  cases enablePositionDebiasing <;> exact ⟨rfl, rfl, rfl⟩

/-- C1 (code bug): the user tower's `torch.cat` receives the 2-D tensors
`[B, DU]`, `[B, DU]` together with the 3-D history summary `[B, 2, DI]` and
raises (tensors must have the same number of dimensions), so no concatenation
of width `2*DU + DI` is ever formed; moreover even flattening the summary
would give width `2*DU + 2*DI`, which differs from the configured
`user_tower_arch` input width `2*DU + DI` (shown at `DU = DI = 2`). -/
theorem c1_user_tower_wiring_bug :
    (∀ B DU DI : ℕ, userTowerCatShape B DU DI
      = Except.error "torch.cat: tensors must have the same number of dimensions")
    ∧ userTowerArchInFeatures 2 2 ≠ 2 * 2 + 2 * 2 := by
  constructor
  · intro B DU DI
    rfl
  · decide

/-- C4 (code bug): `compute_item_embeddings` concatenates the `[B, DI]`
id-embedding with the `[B, DI]` feature projection into a `[B, 2*DI]` tensor
(shown at `B = 1, DI = 2`: shape `[1, 4]`), but `item_tower_arch` is
configured as `nn.Linear(DI, DI)`, so applying it to the concatenation fails
with a shape mismatch instead of returning a `[B, DI]` item embedding
(shown at `B = 1, DI = 2, II = 3`). -/
theorem c4_item_tower_wiring_bug :
    catShape [[1, 2], [1, 2]] 1 = Except.ok [1, 4]
      ∧ computeItemEmbeddingsShape 1 2 3
        = Except.error "mat1 and mat2 shapes cannot be multiplied" := by
  exact ⟨rfl, rfl⟩

/-- C3 (counterexample): the normalization of `train_forward` line 290 does
NOT divide by the post-clamp batch maximum.  For the all-negative batch
`v = [-1]` the code divides the clamped value `0` by the pre-clamp maximum
`-1`, giving weight `0`, whereas dividing by the post-clamp maximum `0`
would give `0 / 0 = NaN`. -/
theorem c3_counterexample_postclamp_divisor :
    clampNormalize 1 vNegOne 0 = WVal.fin 0
      ∧ clampNormalizeSpec 1 vNegOne 0 = WVal.nan
      ∧ clampNormalize 1 vNegOne 0 ≠ clampNormalizeSpec 1 vNegOne 0 := by
  have hcl : clampMin0 (vNegOne 0) = 0 :=
    clampMin0_of_nonpos _ (by norm_num [vNegOne])
  have h1 : clampNormalize 1 vNegOne 0 = WVal.fin 0 := by
    unfold clampNormalize
    rw [batchMax_one, hcl]
    unfold ieeeDivQ
    rw [if_neg (by norm_num [vNegOne])]
    norm_num
  have h2 : clampNormalizeSpec 1 vNegOne 0 = WVal.nan := by
    unfold clampNormalizeSpec
    rw [batchMax_one, hcl]
    unfold ieeeDivQ
    simp
  refine ⟨h1, h2, ?_⟩
  rw [h1, h2]
  exact fun h => WVal.noConfusion h

/-- C3 (amended): line 290 clamps the net-user-value vector at zero and
divides by the PRE-clamp batch maximum (which coincides with the post-clamp
maximum whenever the batch maximum is nonnegative); consequently, for every
batch in which exactly one example `k` has strictly positive net value and
all others are nonpositive, the weight vector is `1` at `k` and `0`
elsewhere. -/
theorem c3_amended_single_positive (B k : ℕ) (v : ℕ → ℚ) (hk : k < B)
    (hpos : 0 < v k) (hothers : ∀ j, j < B → j ≠ k → v j ≤ 0) :
    clampNormalize B v k = WVal.fin 1
      ∧ ∀ j, j < B → j ≠ k → clampNormalize B v j = WVal.fin 0 := by
  have hmax : batchMax B v = v k := by
    apply le_antisymm
    · apply batchMax_le B v (v k) (by omega)
      intro i hi
      by_cases hik : i = k
      · subst hik
        exact le_refl _
      · exact le_trans (hothers i hi hik) hpos.le
    · exact le_batchMax B k v hk
  have hne : batchMax B v ≠ 0 := by
    rw [hmax]
    exact ne_of_gt hpos
  constructor
  · rw [clampNormalize_eq_fin B k v hne, hmax]
    have hcl : clampMin0 (v k) = v k := max_eq_left hpos.le
    rw [hcl, div_self (ne_of_gt hpos)]
  · intro j hj hjk
    rw [clampNormalize_eq_fin B j v hne, hmax]
    have hcl : clampMin0 (v j) = 0 := max_eq_right (hothers j hj hjk)
    rw [hcl, zero_div]

/-- Witness for the amended C3 at the batch `v = [3, -1]`. -/
theorem c3_amended_single_positive_witness :
    clampNormalize 2 vOnePos 0 = WVal.fin 1
      ∧ ∀ j, j < 2 → j ≠ 0 → clampNormalize 2 vOnePos j = WVal.fin 0 :=
  c3_amended_single_positive 2 0 vOnePos (by omega) (by norm_num [vOnePos])
    (by
      intro j hj hjk
      interval_cases j
      · simp_all
      · norm_num [vOnePos])

/-- C2 (counterexample): it is not true that every batch whose net user
values are all nonpositive after clamping triggers a division by zero with a
NaN loss: for `B = 1` with labels all `-1` (net user value `-1`, nonpositive,
so the clamped vector is all zero) the divisor is the pre-clamp maximum `-1`,
not `0`, and `train_forward` returns the finite loss `0`, not NaN. -/
theorem c2_counterexample_all_negative_is_finite :
    netUserValue 1 labelsNegOne uvwOne 0 ≤ 0
      ∧ trainLossNoDebias 1 1 1 embZero embZero labelsNegOne uvwOne = LVal.fin 0
      ∧ trainLossNoDebias 1 1 1 embZero embZero labelsNegOne uvwOne ≠ LVal.nan := by
  have hv : ∀ i, netUserValue 1 labelsNegOne uvwOne i = -1 := by
    intro i
    simp [netUserValue, labelsNegOne, uvwOne]
  have key : trainLossNoDebias 1 1 1 embZero embZero labelsNegOne uvwOne
      = LVal.fin 0 := by
    have hw : clampNormalize 1 (netUserValue 1 labelsNegOne uvwOne) 0
        = WVal.fin 0 := by
      unfold clampNormalize
      rw [batchMax_one, hv 0, clampMin0_of_nonpos _ (by norm_num)]
      unfold ieeeDivQ
      rw [if_neg (by norm_num)]
      norm_num
    unfold trainLossNoDebias weightedMeanLoss batchMeanL
    have hrange : List.range 1 = [0] := by simp [List.range_succ]
    rw [hrange, List.foldr_cons, List.foldr_nil]
    simp only [hw]
    show (match LVal.add (LVal.fin
        (crossEntropyRow 1 (scoresMatrix 1 embZero embZero) 0 * ((0 : ℚ) : ℝ)))
        (LVal.fin 0) with
      | LVal.nan => LVal.nan
      | LVal.fin s => if (1 : ℕ) = 0 then LVal.nan else LVal.fin (s / ((1 : ℕ) : ℝ)))
      = LVal.fin 0
    unfold LVal.add
    norm_num
  refine ⟨by rw [hv 0]; norm_num, key, ?_⟩
  rw [key]
  exact fun h => LVal.noConfusion h

/-- C2 (amended): line 290 is unguarded, but the division by zero happens
exactly when the PRE-clamp batch maximum is zero: whenever every example's
net user value is nonpositive AND the batch maximum is exactly `0`, every
weight is `0 / 0 = NaN` and the NaN propagates silently into the loss
returned by `train_forward` (no error is raised and no fallback applies; the
embedding of line 290 is a total function with no error path). -/
theorem c2_amended_zero_max_gives_nan_loss (B D T : ℕ) (U I : ℕ → ℕ → ℝ)
    (labels : ℕ → ℕ → ℚ) (uvw : ℕ → ℚ) (hB : 0 < B)
    (hneg : ∀ i, i < B → netUserValue T labels uvw i ≤ 0)
    (hmax : batchMax B (netUserValue T labels uvw) = 0) :
    trainLossNoDebias B D T U I labels uvw = LVal.nan := by
  have h0 : (fun i => WVal.scaleCE (crossEntropyRow B (scoresMatrix D U I) i)
      (clampNormalize B (netUserValue T labels uvw) i)) 0 = LVal.nan := by
    show WVal.scaleCE (crossEntropyRow B (scoresMatrix D U I) 0)
        (clampNormalize B (netUserValue T labels uvw) 0) = LVal.nan
    rw [clampNormalize_eq_nan B 0 _ hB hneg hmax]
    rfl
  unfold trainLossNoDebias weightedMeanLoss batchMeanL
  rw [foldr_addL_nan _ _ _ ⟨0, List.mem_range.mpr hB, h0⟩]

/-- Witness for the amended C2 at `B = 1` with all-zero labels (all net
values nonpositive, batch maximum exactly zero). -/
theorem c2_amended_zero_max_gives_nan_loss_witness :
    trainLossNoDebias 1 1 1 embZero embZero labelsZero uvwOne = LVal.nan :=
  c2_amended_zero_max_gives_nan_loss 1 1 1 embZero embZero labelsZero uvwOne
    (by omega)
    (by
      intro i _
      simp [netUserValue, labelsZero])
    (by
      rw [batchMax_one]
      simp [netUserValue, labelsZero])

/-- C8: with position debiasing enabled, `train_forward` looks up a scalar
bias per example via the position index, adds the MSE between net user value
and the bias to the final loss, and subtracts the bias before
clamping/normalization; when the bias table is all zeros the returned loss
equals the non-debiased loss plus exactly `mean(net_user_value²)`. -/
theorem c8_zero_bias_table (B D T : ℕ) (U I : ℕ → ℕ → ℝ)
    (labels : ℕ → ℕ → ℚ) (uvw : ℕ → ℚ) (posTable : ℕ → ℚ) (position : ℕ → ℕ)
    (hzero : ∀ p, posTable p = 0) :
    trainLossDebias B D T U I labels uvw posTable position
      = LVal.add (trainLossNoDebias B D T U I labels uvw)
          (LVal.fin (((∑ i ∈ Finset.range B,
              netUserValue T labels uvw i ^ 2) / (B : ℚ) : ℚ) : ℝ)) := by
  unfold trainLossDebias trainLossNoDebias
  simp only []
  have hdb : (fun i => netUserValue T labels uvw i - posTable (position i))
      = netUserValue T labels uvw := by
    funext i
    rw [hzero (position i), sub_zero]
  rw [hdb]
  have hmse : mseQ B (netUserValue T labels uvw)
      (fun i => posTable (position i))
      = (∑ i ∈ Finset.range B, netUserValue T labels uvw i ^ 2) / (B : ℚ) := by
    unfold mseQ
    congr 1
    refine Finset.sum_congr rfl ?_
    intro i _
    simp only [hzero (position i), sub_zero]
  rw [hmse]

/-- Witness for C8 with the all-zero table `vZeroQ` at `B = D = T = 1`,
zero embeddings, all-one labels and weights. -/
theorem c8_zero_bias_table_witness :
    trainLossDebias 1 1 1 embZero embZero labelsOne uvwOne vZeroQ id
      = LVal.add (trainLossNoDebias 1 1 1 embZero embZero labelsOne uvwOne)
          (LVal.fin (((∑ i ∈ Finset.range 1,
              netUserValue 1 labelsOne uvwOne i ^ 2) / ((1 : ℕ) : ℚ) : ℚ) : ℝ)) :=
  c8_zero_bias_table 1 1 1 embZero embZero labelsOne uvwOne vZeroQ id
    (fun _ => rfl)

/-- C6 (amended): `train_forward` with debiasing disabled scores every
user/item pair by dot product, takes the per-row softmax cross-entropy
against the diagonal as an unreduced vector, multiplies it elementwise by the
clamped/normalized weight and takes the batch mean; PROVIDED the batch
maximum net user value is strictly positive (some example has positive net
value), the returned loss is a finite nonnegative scalar. -/
theorem c6_amended_loss_nonneg (B D T : ℕ) (U I : ℕ → ℕ → ℝ)
    (labels : ℕ → ℕ → ℚ) (uvw : ℕ → ℚ) (hB : 0 < B)
    (hmax : 0 < batchMax B (netUserValue T labels uvw)) :
    ∃ r : ℝ, trainLossNoDebias B D T U I labels uvw = LVal.fin r ∧ 0 ≤ r := by
  have hne : batchMax B (netUserValue T labels uvw) ≠ 0 := ne_of_gt hmax
  have hfun : (fun i acc => LVal.add
        (WVal.scaleCE (crossEntropyRow B (scoresMatrix D U I) i)
          (clampNormalize B (netUserValue T labels uvw) i)) acc)
      = (fun i acc => LVal.add (LVal.fin
          (crossEntropyRow B (scoresMatrix D U I) i *
            ((clampMin0 (netUserValue T labels uvw i)
              / batchMax B (netUserValue T labels uvw) : ℚ) : ℝ))) acc) := by
    funext i acc
    rw [clampNormalize_eq_fin _ _ _ hne]
    rfl
  unfold trainLossNoDebias weightedMeanLoss batchMeanL
  rw [hfun, foldr_addL_fin]
  have hsum : 0 ≤ (List.range B).foldr (fun i s =>
      crossEntropyRow B (scoresMatrix D U I) i *
        ((clampMin0 (netUserValue T labels uvw i)
          / batchMax B (netUserValue T labels uvw) : ℚ) : ℝ) + s) 0 := by
    apply foldr_add_nonneg
    intro i hi
    apply mul_nonneg
    · exact crossEntropyRow_nonneg B i _ (List.mem_range.mp hi)
    · rw [Rat.cast_nonneg]
      exact div_nonneg (le_max_right _ 0) hmax.le
  refine ⟨_, ?_, div_nonneg hsum (Nat.cast_nonneg B)⟩
  simp [Nat.pos_iff_ne_zero.mp hB]

/-- Witness for the amended C6 at `B = D = T = 1` with zero embeddings,
all-one labels and weights (batch maximum net value `1 > 0`). -/
theorem c6_amended_loss_nonneg_witness :
    ∃ r : ℝ, trainLossNoDebias 1 1 1 embZero embZero labelsOne uvwOne
        = LVal.fin r ∧ 0 ≤ r :=
  c6_amended_loss_nonneg 1 1 1 embZero embZero labelsOne uvwOne (by omega)
    (by
      rw [batchMax_one]
      norm_num [netUserValue, labelsOne, uvwOne])

/-- C6 (counterexample): without the positivity proviso the claim is false:
for the batch `B = 1` with zero embeddings and all-zero labels the net user
value is `0`, the batch maximum is `0`, the weight is `0 / 0 = NaN`, and the
returned loss is NaN — not a nonnegative scalar. -/
theorem c6_counterexample_zero_labels_nan :
    trainLossNoDebias 1 1 1 embZero embZero labelsZero uvwOne = LVal.nan
      ∧ ¬ ∃ r : ℝ, trainLossNoDebias 1 1 1 embZero embZero labelsZero uvwOne
          = LVal.fin r ∧ 0 ≤ r := by
  have hv : ∀ i, netUserValue 1 labelsZero uvwOne i = 0 := by
    intro i
    simp [netUserValue, labelsZero]
  have hmain : trainLossNoDebias 1 1 1 embZero embZero labelsZero uvwOne
      = LVal.nan := by
    have hw : clampNormalize 1 (netUserValue 1 labelsZero uvwOne) 0 = WVal.nan := by
      unfold clampNormalize
      rw [batchMax_one, hv 0, clampMin0_of_nonpos _ (le_refl 0)]
      unfold ieeeDivQ
      rw [if_pos rfl, if_pos rfl]
    have h0 : (fun i => WVal.scaleCE
          (crossEntropyRow 1 (scoresMatrix 1 embZero embZero) i)
          (clampNormalize 1 (netUserValue 1 labelsZero uvwOne) i)) 0
        = LVal.nan := by
      show WVal.scaleCE (crossEntropyRow 1 (scoresMatrix 1 embZero embZero) 0)
          (clampNormalize 1 (netUserValue 1 labelsZero uvwOne) 0) = LVal.nan
      rw [hw]
      rfl
    unfold trainLossNoDebias weightedMeanLoss batchMeanL
    rw [foldr_addL_nan _ _ _ ⟨0, by simp, h0⟩]
  refine ⟨hmain, ?_⟩
  rintro ⟨r, hr, -⟩
  rw [hmain] at hr
  exact LVal.noConfusion hr

/-- C5 (counterexample): the spec's formula "entry (pos, 2i) =
sin(pos / 10000^(2i/D))" is wrong for the generated table: at `H = 2, D = 4,
pos = 1, i = 1` (column 2) the table holds
`sin(1 / 10000^(2*2/4)) = sin(1/10000)`, whereas the spec formula gives
`sin(1 / 10000^(2*1/4)) = sin(1/100)`, and the two differ. -/
theorem c5_counterexample_pe_formula :
    positional_encoding 2 4 1 2 ≠ specPESinEntry 4 1 1 := by
  rw [positional_encoding_eval 2 4 1 2 (by omega) (by omega), if_pos (by omega)]
  unfold peSin specPESinEntry
  have e1 : (((2 * 2 : ℕ) : ℝ) / ((4 : ℕ) : ℝ)) = 1 := by norm_num
  have e2 : (((2 * 1 : ℕ) : ℝ) / ((4 : ℕ) : ℝ)) = 1 / 2 := by norm_num
  rw [e1, e2, Nat.cast_one]
  have hy0 : (0 : ℝ) < (10000 : ℝ) ^ ((1 : ℝ) / 2) :=
    Real.rpow_pos_of_pos (by norm_num) _
  have hx0 : (0 : ℝ) < (10000 : ℝ) ^ (1 : ℝ) :=
    Real.rpow_pos_of_pos (by norm_num) _
  have hyx : (10000 : ℝ) ^ ((1 : ℝ) / 2) < (10000 : ℝ) ^ (1 : ℝ) :=
    (Real.rpow_lt_rpow_left_iff (by norm_num)).mpr (by norm_num)
  have hinv : 1 / (10000 : ℝ) ^ (1 : ℝ) < 1 / (10000 : ℝ) ^ ((1 : ℝ) / 2) :=
    one_div_lt_one_div_of_lt hy0 hyx
  have hy1 : (1 : ℝ) ≤ (10000 : ℝ) ^ ((1 : ℝ) / 2) :=
    Real.one_le_rpow (by norm_num) (by norm_num)
  have hpi := Real.pi_gt_three
  have hub : 1 / (10000 : ℝ) ^ ((1 : ℝ) / 2) ≤ Real.pi / 2 := by
    have h1 : 1 / (10000 : ℝ) ^ ((1 : ℝ) / 2) ≤ 1 := by
      rw [div_le_one hy0]
      exact hy1
    linarith
  have hm1 : 1 / (10000 : ℝ) ^ (1 : ℝ)
      ∈ Set.Icc (-(Real.pi / 2)) (Real.pi / 2) := by
    constructor
    · have h0 : (0 : ℝ) ≤ 1 / (10000 : ℝ) ^ (1 : ℝ) := by positivity
      linarith
    · linarith [hinv, hub]
  have hm2 : 1 / (10000 : ℝ) ^ ((1 : ℝ) / 2)
      ∈ Set.Icc (-(Real.pi / 2)) (Real.pi / 2) := by
    constructor
    · have h0 : (0 : ℝ) ≤ 1 / (10000 : ℝ) ^ ((1 : ℝ) / 2) := by positivity
      linarith
    · exact hub
  exact ne_of_lt (Real.strictMonoOn_sin hm1 hm2 hinv)

/-- C5 (amended): for every `H`, `D`, every generated cell `(pos, c)` with
`pos < H`, `c < D` satisfies: entry = `sin(pos / 10000^(2c/D))` for even `c`
and `cos(pos / 10000^(2c/D))` for odd `c` (so the sine entry at column `2i`
uses exponent `4i/D`, not `2i/D` as the spec wrote, and for odd `D` the last
column `D-1` is even and keeps its sine value with no cosine partner); the
stored table is the flip of the generated one along the position axis, so
stored row `r < H` is generated row `H - 1 - r` and row `0` is the largest
generated position `H - 1`. -/
theorem c5_amended_pe_table (H D pos c r : ℕ)
    (hp : pos < H) (hc : c < D) (_hr : r < H) :
    positional_encoding H D pos c
        = (if c % 2 = 0 then peSin D pos c else peCos D pos c)
      ∧ positional_embeddings H D r c = positional_encoding H D (H - 1 - r) c
      ∧ positional_embeddings H D 0 c = positional_encoding H D (H - 1) c :=
  ⟨positional_encoding_eval H D pos c hp hc, rfl, rfl⟩

/-- Witness for the amended C5 at `H = 2, D = 3, pos = 1, c = 2, r = 1`. -/
theorem c5_amended_pe_table_witness :
    positional_encoding 2 3 1 2
        = (if 2 % 2 = 0 then peSin 3 1 2 else peCos 3 1 2)
      ∧ positional_embeddings 2 3 1 2 = positional_encoding 2 3 (2 - 1 - 1) 2
      ∧ positional_embeddings 2 3 0 2 = positional_encoding 2 3 (2 - 1) 2 :=
  c5_amended_pe_table 2 3 1 2 1 (by omega) (by omega) (by omega)

/-- C7 (amended): for input of shape `[B, H, DI]` with `num_heads` dividing
`DI`, `B, H > 0` and `DI ≠ 1`, `UserHistoryEncoder.forward` adds the
positional table (broadcast over the batch), calls attention with the same
permuted enriched sequence as query, key and value, and returns the
`[B, 2, DI]` tensor whose row 0 per example is the attended vector at the
most-recent position (index 0) and whose row 1 is the mean of the attended
vectors over all `H` positions.  (At `DI = 1` the `squeeze(1)` on line 85
collapses the first-row tensor and `torch.stack` raises instead — see the
counterexample.) -/
theorem c7_amended_forward (attn : T3 → T3 → T3 → T3) (pos : T2) (hist : T3)
    (B H DI numHeads : ℕ) (hB : 0 < B) (hH : 0 < H) (hDI : DI ≠ 1)
    (_hdiv : numHeads ∣ DI)
    (hhist : hasShape3 hist B H DI) (hpos : hasShape2 pos H DI)
    (hattn : ∀ q, hasShape3 q H B DI → hasShape3 (attn q q q) H B DI) :
    UserHistoryEncoder.forward attn pos hist
        = Except.ok (List.zipWith (fun f m => [f, m])
            (firstRows (permute102 (attn (permute102 (addPositional hist pos))
              (permute102 (addPositional hist pos))
              (permute102 (addPositional hist pos)))))
            ((permute102 (attn (permute102 (addPositional hist pos))
              (permute102 (addPositional hist pos))
              (permute102 (addPositional hist pos)))).map rowMean))
      ∧ hasShape3 (List.zipWith (fun f m => [f, m])
            (firstRows (permute102 (attn (permute102 (addPositional hist pos))
              (permute102 (addPositional hist pos))
              (permute102 (addPositional hist pos)))))
            ((permute102 (attn (permute102 (addPositional hist pos))
              (permute102 (addPositional hist pos))
              (permute102 (addPositional hist pos)))).map rowMean))
          B 2 DI := by
  have hP : hasShape3 (permute102 (addPositional hist pos)) H B DI :=
    permute102_shape _ B H DI hB (addPositional_shape hist pos B H DI hhist hpos)
  have hA : hasShape3 (permute102 (attn (permute102 (addPositional hist pos))
      (permute102 (addPositional hist pos))
      (permute102 (addPositional hist pos)))) B H DI :=
    permute102_shape _ H B DI hH (hattn _ hP)
  have hfirst : hasShape2 (firstRows (permute102
      (attn (permute102 (addPositional hist pos))
        (permute102 (addPositional hist pos))
        (permute102 (addPositional hist pos))))) B DI :=
    firstRows_shape _ B H DI hH hA
  have hmean : hasShape2 ((permute102 (attn (permute102 (addPositional hist pos))
      (permute102 (addPositional hist pos))
      (permute102 (addPositional hist pos)))).map rowMean) B DI :=
    mapRowMean_shape _ B H DI hH hA
  constructor
  · unfold UserHistoryEncoder.forward
    simp only []
    rw [squeezeDim1_of_ne_one _ B DI hB hDI hfirst]
    exact stackPair1_ok _ _ B DI hfirst hmean
  · exact stack_result_shape _ _ B DI hfirst hmean

/-- Witness for the amended C7 at `B = H = 1, DI = 2, num_heads = 2`, with
identity attention. -/
theorem c7_amended_forward_witness :
    UserHistoryEncoder.forward attnId posH1D2 histB1H1D2
        = Except.ok (List.zipWith (fun f m => [f, m])
            (firstRows (permute102 (attnId (permute102 (addPositional histB1H1D2 posH1D2))
              (permute102 (addPositional histB1H1D2 posH1D2))
              (permute102 (addPositional histB1H1D2 posH1D2)))))
            ((permute102 (attnId (permute102 (addPositional histB1H1D2 posH1D2))
              (permute102 (addPositional histB1H1D2 posH1D2))
              (permute102 (addPositional histB1H1D2 posH1D2)))).map rowMean))
      ∧ hasShape3 (List.zipWith (fun f m => [f, m])
            (firstRows (permute102 (attnId (permute102 (addPositional histB1H1D2 posH1D2))
              (permute102 (addPositional histB1H1D2 posH1D2))
              (permute102 (addPositional histB1H1D2 posH1D2)))))
            ((permute102 (attnId (permute102 (addPositional histB1H1D2 posH1D2))
              (permute102 (addPositional histB1H1D2 posH1D2))
              (permute102 (addPositional histB1H1D2 posH1D2)))).map rowMean))
          1 2 2 :=
  c7_amended_forward attnId posH1D2 histB1H1D2 1 1 2 2 (by omega) (by omega)
    (by omega) ⟨1, rfl⟩
    (by
      refine ⟨rfl, ?_⟩
      intro m hm
      simp only [histB1H1D2, List.mem_singleton] at hm
      subst hm
      refine ⟨rfl, ?_⟩
      intro r hr
      simp only [List.mem_singleton] at hr
      subst hr
      rfl)
    (by
      refine ⟨rfl, ?_⟩
      intro r hr
      simp only [posH1D2, List.mem_singleton] at hr
      subst hr
      rfl)
    (fun _ hq => hq)

/-- C7 (counterexample): at `DI = 1` (with `num_heads = 1`, which divides
`DI`) a well-shaped `[1, 1, 1]` input makes `forward` raise instead of
returning a `[B, 2, DI]` tensor: `attn_output[:, 0, :].squeeze(1)` collapses
the `[B, 1]` first-row tensor to one dimension, and `torch.stack` then
rejects the mismatched shapes. -/
theorem c7_counterexample_squeeze_di_one :
    hasShape3 histB1H1D1 1 1 1 ∧ hasShape2 posH1D1 1 1 ∧ (1 : ℕ) ∣ 1
      ∧ UserHistoryEncoder.forward attnId posH1D1 histB1H1D1
        = Except.error "stack expects each tensor to be equal size" := by
  refine ⟨?_, ?_, ⟨1, rfl⟩, rfl⟩
  · refine ⟨rfl, ?_⟩
    intro m hm
    simp only [histB1H1D1, List.mem_singleton] at hm
    subst hm
    refine ⟨rfl, ?_⟩
    intro r hr
    simp only [List.mem_singleton] at hr
    subst hr
    rfl
  · refine ⟨rfl, ?_⟩
    intro r hr
    simp only [posH1D1, List.mem_singleton] at hr
    subst hr
    rfl
